import Mathlib

/-!
Verification of the task-coordination core of the repository (the dependency-aware
TODO service in `todo/service.go` and `todo/storage.go`): data model, graph
operations, cycle detection, gated status transitions, and the JSON round-trip of
the storage layer.  Each Go function is embedded as a pure Lean function over the
in-memory `TODOList`; an operation that in Go loads the list, mutates it and saves
is embedded as `TODOList → Except TodoError TODOList`, where `.ok` corresponds to
the path that reaches `storage.Save` and `.error` to an early return before any
save.
-/

instance {ε α : Type} [DecidableEq ε] [DecidableEq α] : DecidableEq (Except ε α) :=
  fun x y =>
    match x, y with
    | .ok a, .ok b =>
      if h : a = b then isTrue (by rw [h])
      else isFalse (by intro hh; cases hh; exact h rfl)
    | .error a, .error b =>
      if h : a = b then isTrue (by rw [h])
      else isFalse (by intro hh; cases hh; exact h rfl)
    | .ok _, .error _ => isFalse (by intro hh; cases hh)
    | .error _, .ok _ => isFalse (by intro hh; cases hh)

/-- Embeds Go struct `TODOItem` (`todo/service.go` types): id, title, status,
assignee, depends_on. -/
structure TODOItem where
  ID : String
  Title : String
  Status : String
  Assignee : String
  DependsOn : List String
deriving Repr, DecidableEq

/-- Embeds Go struct `TODOList`: the ordered list of items. -/
structure TODOList where
  Items : List TODOItem
deriving Repr, DecidableEq

/-- One constructor per distinct `fmt.Errorf` site of `todo/service.go`,
carrying the data interpolated at that site. -/
inductive TodoError where
  | idRequired
  | titleRequired
  | duplicateID (id : String)
  | dependencyNotFound (id : String)
  | notFound (id : String)
  | invalidStatus (status : String)
  | agentNameRequired
  | notAssigned (id : String)
  | permissionDenied (id agent assignee : String)
  | blocked (id : String) (blocking : List String)
  | hasDependents (id : String) (dependents : List String)
  | selfDependency
  | circularDependency (dependsOnID todoID : String)
  | duplicateDependency (dependsOnID todoID : String)
deriving Repr, DecidableEq

/-- Embeds `findTODOByID`: first item whose ID matches, if any. -/
def findTODOByID (list : TODOList) (id : String) : Option TODOItem :=
  list.Items.find? (fun i => i.ID == id)

/-- Embeds `validateDependenciesExist`: first dependency id that does not
resolve, if any (the Go loop returns the error for the first missing id). -/
def validateDependenciesExist (list : TODOList) (dependsOn : List String) :
    Option TodoError :=
  match dependsOn.find? (fun depID => (findTODOByID list depID).isNone) with
  | some depID => some (.dependencyNotFound depID)
  | none => none

/-- Embeds `AddTODO` (`todo/service.go`): validation, then append of the new
pending item.  Returns the new list together with the created item. -/
def AddTODO (list : TODOList) (id title assignee : String)
    (dependsOn : List String) : Except TodoError (TODOList × TODOItem) :=
  if id == "" then .error .idRequired
  else if title == "" then .error .titleRequired
  else if (findTODOByID list id).isSome then .error (.duplicateID id)
  else match validateDependenciesExist list dependsOn with
    | some e => .error e
    | none =>
      let newItem : TODOItem :=
        { ID := id, Title := title, Status := "pending",
          Assignee := assignee, DependsOn := dependsOn }
      .ok (⟨list.Items ++ [newItem]⟩, newItem)

/-- The dependency ids of `item` that are missing or not `done` (the `blocking`
list built by `checkDependenciesSatisfied`). -/
def blockingIDs (list : TODOList) (item : TODOItem) : List String :=
  item.DependsOn.filter (fun depID =>
    match findTODOByID list depID with
    | none => true
    | some dep => dep.Status != "done")

/-- Embeds `checkDependenciesSatisfied`: `(true, [])` when there are no
dependencies, otherwise `(blocking.isEmpty, blocking)`. -/
def checkDependenciesSatisfied (list : TODOList) (item : TODOItem) :
    Bool × List String :=
  if item.DependsOn.isEmpty then (true, [])
  else
    let blocking := blockingIDs list item
    (blocking.isEmpty, blocking)

/-- The status validation of `UpdateStatus`/`UpdateStatusWithAgent`. -/
def validStatusB (status : String) : Bool :=
  status == "pending" || status == "in_progress" || status == "done"

/-- Applies `f` to the first item whose ID matches, leaving the rest unchanged:
the pure rendering of Go's find-a-pointer-then-mutate pattern. -/
def modifyFirstByID (f : TODOItem → TODOItem) (id : String) :
    List TODOItem → List TODOItem
  | [] => []
  | i :: rest =>
    if i.ID == id then f i :: rest else i :: modifyFirstByID f id rest

/-- Embeds `UpdateStatus` (admin path): status validation, lookup, the two
gated branches out of `pending`, otherwise the unconditional update. -/
def UpdateStatus (list : TODOList) (id status : String) :
    Except TodoError TODOList :=
  if !(validStatusB status) then .error (.invalidStatus status)
  else match findTODOByID list id with
    | none => .error (.notFound id)
    | some item =>
      let setIt : TODOList :=
        ⟨modifyFirstByID (fun i => { i with Status := status }) id list.Items⟩
      if status == "in_progress" && item.Status == "pending" then
        let c := checkDependenciesSatisfied list item
        if c.1 then .ok setIt else .error (.blocked id c.2)
      else if status == "done" && item.Status == "pending" then
        let c := checkDependenciesSatisfied list item
        if c.1 then .ok setIt else .error (.blocked id c.2)
      else .ok setIt

/-- Embeds `UpdateStatusWithAgent`: like `UpdateStatus` but requires a
non-empty agent name and an assignee match before the transition logic. -/
def UpdateStatusWithAgent (list : TODOList) (id status agentName : String) :
    Except TodoError TODOList :=
  if agentName == "" then .error .agentNameRequired
  else if !(validStatusB status) then .error (.invalidStatus status)
  else match findTODOByID list id with
    | none => .error (.notFound id)
    | some item =>
      if item.Assignee == "" then .error (.notAssigned id)
      else if item.Assignee != agentName then
        .error (.permissionDenied id agentName item.Assignee)
      else
        let setIt : TODOList :=
          ⟨modifyFirstByID (fun i => { i with Status := status }) id list.Items⟩
        if status == "in_progress" && item.Status == "pending" then
          let c := checkDependenciesSatisfied list item
          if c.1 then .ok setIt else .error (.blocked id c.2)
        else if status == "done" && item.Status == "pending" then
          let c := checkDependenciesSatisfied list item
          if c.1 then .ok setIt else .error (.blocked id c.2)
        else .ok setIt

/-- Embeds `UpdateAssignee`: set the assignee of the first matching item. -/
def UpdateAssignee (list : TODOList) (id assignee : String) :
    Except TodoError TODOList :=
  if list.Items.any (fun i => i.ID == id) then
    .ok ⟨modifyFirstByID (fun i => { i with Assignee := assignee }) id list.Items⟩
  else .error (.notFound id)

/-- Embeds `findDependents`: the IDs of all items whose depends_on contains
`id`. -/
def findDependents (list : TODOList) (id : String) : List String :=
  (list.Items.filter (fun item => item.DependsOn.contains id)).map
    (fun item => item.ID)

/-- Embeds `RemoveTODO`: dependents check, then removal of every item with the
given ID (Go's loop keeps all non-matching items), `notFound` when no item
matched. -/
def RemoveTODO (list : TODOList) (id : String) : Except TodoError TODOList :=
  let dependents := findDependents list id
  if !dependents.isEmpty then .error (.hasDependents id dependents)
  else
    let newItems := list.Items.filter (fun item => !(item.ID == id))
    if list.Items.any (fun item => item.ID == id) then .ok ⟨newItems⟩
    else .error (.notFound id)

/-- Embeds `RemoveDependency`: `notFound` when the item is absent, otherwise
filter the dependency out of the first matching item (absence of the edge is
not an error). -/
def RemoveDependency (list : TODOList) (todoID dependsOnID : String) :
    Except TodoError TODOList :=
  match findTODOByID list todoID with
  | none => .error (.notFound todoID)
  | some _ =>
    .ok ⟨modifyFirstByID
      (fun i => { i with DependsOn := i.DependsOn.filter (fun d => !(d == dependsOnID)) })
      todoID list.Items⟩

/-- The persisted list after an operation: the new list when the operation
reached `storage.Save`, the old one when it returned before saving. -/
def persistAfter (list : TODOList) : Except TodoError TODOList → TODOList
  | .ok l => l
  | .error _ => list

/-- The persisted list after `AddTODO` (which also returns the created item). -/
def persistAfterAdd (list : TODOList) :
    Except TodoError (TODOList × TODOItem) → TODOList
  | .ok p => p.1
  | .error _ => list

/-- The dependency ids of the item with the given ID (empty when absent): the
edge list the DFS of `detectCircularDependency` follows. -/
def depsOf (list : TODOList) (id : String) : List String :=
  match findTODOByID list id with
  | some item => item.DependsOn
  | none => []

/-- The dependency edge relation: `Step list a b` when `a` depends on `b`. -/
def Step (list : TODOList) (a b : String) : Prop :=
  b ∈ depsOf list a

/-- Transitive-reflexive reachability along dependency edges. -/
def Reach (list : TODOList) (a b : String) : Prop :=
  Relation.ReflTransGen (Step list) a b

/-- The acyclicity invariant of the data model: no id transitively depends on
itself. -/
def Acyclic (list : TODOList) : Prop :=
  ∀ x, ¬ Relation.TransGen (Step list) x x

/-- The sequential exploration of a block of children in the DFS of
`detectCircularDependency`, threading the visited set and stopping at the
first `true`. -/
def dfsList (g : List String → String → Bool × List String) :
    List String → List String → Bool × List String
  | visited, [] => (false, visited)
  | visited, d :: ds =>
    match g visited d with
    | (true, v) => (true, v)
    | (false, v) => dfsList g v ds

/-- The fuelled rendering of the recursive closure `dfs` inside
`detectCircularDependency`: returns `true` on reaching `target`, cuts at
visited ids, otherwise marks the id visited and explores its dependency ids. -/
def dfs (list : TODOList) (target : String) :
    Nat → List String → String → Bool × List String
  | 0, visited, _ => (false, visited)
  | n + 1, visited, id =>
    if id == target then (true, visited)
    else if visited.contains id then (false, visited)
    else dfsList (dfs list target n) (id :: visited) (depsOf list id)

/-- Embeds `detectCircularDependency`: a DFS from `dependsOnID` looking for
`todoID`.  The fuel `list.Items.length + 2` exceeds the deepest possible
expansion chain, so it never runs out (proved below). -/
def detectCircularDependency (list : TODOList) (todoID dependsOnID : String) :
    Bool :=
  (dfs list todoID (list.Items.length + 2) [] dependsOnID).1

/-- The list after appending `dependsOnID` to the depends_on of the first
item whose ID is `todoID` (the mutation `AddDependency` persists). -/
def addEdgeList (list : TODOList) (todoID dependsOnID : String) : TODOList :=
  ⟨modifyFirstByID
    (fun i => { i with DependsOn := i.DependsOn ++ [dependsOnID] })
    todoID list.Items⟩

/-- Embeds `AddDependency`: self-check, the two lookups, cycle detection,
duplicate-edge check, then append to the first matching item. -/
def AddDependency (list : TODOList) (todoID dependsOnID : String) :
    Except TodoError TODOList :=
  if todoID == dependsOnID then .error .selfDependency
  else match findTODOByID list todoID with
    | none => .error (.notFound todoID)
    | some todo =>
      if (findTODOByID list dependsOnID).isNone then
        .error (.dependencyNotFound dependsOnID)
      else if detectCircularDependency list todoID dependsOnID then
        .error (.circularDependency dependsOnID todoID)
      else if todo.DependsOn.contains dependsOnID then
        .error (.duplicateDependency dependsOnID todoID)
      else
        .ok (addEdgeList list todoID dependsOnID)

/-- A sequence of `AddDependency` calls, each of which must succeed. -/
def addDepSeq (list : TODOList) : List (String × String) →
    Except TodoError TODOList
  | [] => .ok list
  | c :: cs =>
    match AddDependency list c.1 c.2 with
    | .ok list' => addDepSeq list' cs
    | .error e => .error e

/-- Embeds `GetReadyTODOs`: pending items whose dependencies are all
satisfied. -/
def GetReadyTODOs (list : TODOList) : List TODOItem :=
  list.Items.filter (fun item =>
    item.Status == "pending" && (checkDependenciesSatisfied list item).1)

/-- Embeds Go struct `BlockingInfo`. -/
structure BlockingInfo where
  ID : String
  Title : String
  Status : String
deriving Repr, DecidableEq

/-- Embeds Go struct `BlockedTODO`. -/
structure BlockedTODO where
  ID : String
  Title : String
  Status : String
  Assignee : String
  BlockedBy : List BlockingInfo
deriving Repr, DecidableEq

/-- The `BlockedTODO` record `GetBlockedTODOs` builds for a blocked item:
blocking ids resolved to `BlockingInfo` records, dropping unresolvable ids. -/
def mkBlockedTODO (list : TODOList) (item : TODOItem) : BlockedTODO :=
  { ID := item.ID, Title := item.Title, Status := item.Status,
    Assignee := item.Assignee,
    BlockedBy := (checkDependenciesSatisfied list item).2.filterMap
      (fun blockID => (findTODOByID list blockID).map
        (fun b => { ID := b.ID, Title := b.Title, Status := b.Status })) }

/-- Embeds `GetBlockedTODOs`: pending items with a non-empty dependency list
and at least one unsatisfied dependency. -/
def GetBlockedTODOs (list : TODOList) : List BlockedTODO :=
  (list.Items.filter (fun item =>
    item.Status == "pending" && !item.DependsOn.isEmpty &&
      !(checkDependenciesSatisfied list item).1)).map (mkBlockedTODO list)

/-- The JSON documents relevant to the storage layer (`todo/storage.go`):
strings, arrays, objects, and null. -/
inductive JValue where
  | str (s : String)
  | arr (xs : List JValue)
  | obj (fields : List (String × JValue))
  | null

/-- First JSON object field with the given key, as Go's decoder resolves
struct tags. -/
def lookupField (fields : List (String × JValue)) (key : String) :
    Option JValue :=
  (fields.find? (fun p => p.1 == key)).map (fun p => p.2)

/-- Embeds `json.Marshal` of a `TODOItem`: the five tagged fields in struct
order, `depends_on` omitted when empty (`omitempty`). -/
def marshalTODOItem (i : TODOItem) : JValue :=
  .obj ([("id", .str i.ID), ("title", .str i.Title), ("status", .str i.Status),
         ("assignee", .str i.Assignee)] ++
    (if i.DependsOn.isEmpty then []
     else [("depends_on", .arr (i.DependsOn.map .str))]))

/-- Embeds `json.Marshal` of a `TODOList`: one `items` field. -/
def marshalTODOList (l : TODOList) : JValue :=
  .obj [("items", .arr (l.Items.map marshalTODOItem))]

/-- Decoding a JSON value into a Go `string` field: absent or null leaves the
zero value, a string decodes, anything else is a parse error. -/
def decodeStringField : Option JValue → Option String
  | none => some ""
  | some (.str s) => some s
  | some .null => some ""
  | some _ => none

/-- Decoding a JSON array of strings elementwise. -/
def decodeStringElems : List JValue → Option (List String)
  | [] => some []
  | .str s :: js => (decodeStringElems js).map (fun rest => s :: rest)
  | _ => none

/-- Decoding a JSON value into a Go `[]string` field: absent or null leaves
the zero value (empty), an array decodes elementwise. -/
def decodeStringListField : Option JValue → Option (List String)
  | none => some []
  | some .null => some []
  | some (.arr js) => decodeStringElems js
  | some _ => none

/-- Embeds `json.Unmarshal` into a `TODOItem`: fields resolved by tag,
missing fields left at their zero values. -/
def unmarshalTODOItem : JValue → Option TODOItem
  | .obj fields =>
    match decodeStringField (lookupField fields "id"),
        decodeStringField (lookupField fields "title"),
        decodeStringField (lookupField fields "status"),
        decodeStringField (lookupField fields "assignee"),
        decodeStringListField (lookupField fields "depends_on") with
    | some id, some title, some status, some assignee, some deps =>
      some ⟨id, title, status, assignee, deps⟩
    | _, _, _, _, _ => none
  | _ => none

/-- Decoding a JSON array of items elementwise. -/
def unmarshalItems : List JValue → Option (List TODOItem)
  | [] => some []
  | j :: js =>
    match unmarshalTODOItem j, unmarshalItems js with
    | some i, some rest => some (i :: rest)
    | _, _ => none

/-- Embeds `json.Unmarshal` into a `TODOList` (whose `Items` starts out
empty in `Load`). -/
def unmarshalTODOList : JValue → Option TODOList
  | .obj fields =>
    (match lookupField fields "items" with
     | none => some ⟨[]⟩
     | some .null => some ⟨[]⟩
     | some (.arr js) => (unmarshalItems js).map TODOList.mk
     | some _ => none)
  | _ => none

/-- The storage-level failure of `Load`. -/
inductive StorageError where
  | parseError
deriving Repr, DecidableEq

/-- Embeds `FileStorage.Save`: the document the atomic write leaves as the
sole content of the backing file. -/
def SaveDoc (list : TODOList) : Option JValue :=
  some (marshalTODOList list)

/-- Embeds `FileStorage.Load`: a missing or zero-length file (`none`) is an
empty list, otherwise the document is decoded, failing with a parse error. -/
def LoadDoc (file : Option JValue) : Except StorageError TODOList :=
  match file with
  | none => .ok ⟨[]⟩
  | some j =>
    match unmarshalTODOList j with
    | some l => .ok l
    | none => .error .parseError

example :
    LoadDoc (SaveDoc ⟨[⟨"t1", "A", "pending", "", []⟩,
                       ⟨"t2", "B", "done", "x", ["t1"]⟩]⟩) =
      .ok ⟨[⟨"t1", "A", "pending", "", []⟩,
            ⟨"t2", "B", "done", "x", ["t1"]⟩]⟩ := by decide

example :
    AddTODO ⟨[]⟩ "t1" "A" "" [] =
      .ok (⟨[⟨"t1", "A", "pending", "", []⟩]⟩, ⟨"t1", "A", "pending", "", []⟩) := by
  decide

example :
    UpdateStatus ⟨[⟨"t1", "A", "pending", "", []⟩]⟩ "t1" "done" =
      .ok ⟨[⟨"t1", "A", "done", "", []⟩]⟩ := by decide

example :
    UpdateStatus ⟨[⟨"t1", "A", "pending", "", []⟩,
                   ⟨"t2", "B", "pending", "", ["t1"]⟩]⟩ "t2" "in_progress" =
      .error (.blocked "t2" ["t1"]) := by decide

example :
    AddDependency ⟨[⟨"t1", "A", "pending", "", []⟩,
                    ⟨"t2", "B", "pending", "", []⟩]⟩ "t2" "t1" =
      .ok ⟨[⟨"t1", "A", "pending", "", []⟩,
            ⟨"t2", "B", "pending", "", ["t1"]⟩]⟩ := by decide

example :
    AddDependency ⟨[⟨"t1", "A", "pending", "", []⟩,
                    ⟨"t2", "B", "pending", "", ["t1"]⟩]⟩ "t1" "t2" =
      .error (.circularDependency "t2" "t1") := by decide

example :
    GetBlockedTODOs ⟨[⟨"t1", "A", "pending", "", []⟩,
                      ⟨"t2", "B", "pending", "", ["t1"]⟩]⟩ =
      [⟨"t2", "B", "pending", "", [⟨"t1", "A", "pending"⟩]⟩] := by decide

example :
    GetReadyTODOs ⟨[⟨"t1", "A", "pending", "", []⟩,
                    ⟨"t2", "B", "pending", "", ["t1"]⟩]⟩ =
      [⟨"t1", "A", "pending", "", []⟩] := by decide

lemma decodeStringElems_map (l : List String) :
    decodeStringElems (l.map JValue.str) = some l := by
  induction l with
  | nil => rfl
  | cons s rest ih => simp [decodeStringElems, ih]

lemma unmarshal_marshal_item (i : TODOItem) :
    unmarshalTODOItem (marshalTODOItem i) = some i := by
  by_cases h : i.DependsOn.isEmpty
  · simp [marshalTODOItem, unmarshalTODOItem, h, lookupField, List.find?,
      decodeStringField, decodeStringListField]
    cases hi : i
    simp_all
  · simp [marshalTODOItem, unmarshalTODOItem, h, lookupField, List.find?,
      decodeStringField, decodeStringListField, decodeStringElems_map]

lemma unmarshalItems_map (items : List TODOItem) :
    unmarshalItems (items.map marshalTODOItem) = some items := by
  induction items with
  | nil => rfl
  | cons i rest ih => simp [unmarshalItems, unmarshal_marshal_item, ih]

/-- C5: Round-trip — `Save(L)` followed by `Load()` returns a `TaskList` equal
to `L` in content (ids, titles, statuses, assignees, dependency lists) and in
order of items. -/
theorem load_save_roundtrip (L : TODOList) : LoadDoc (SaveDoc L) = .ok L := by
  simp [LoadDoc, SaveDoc, marshalTODOList, unmarshalTODOList, lookupField,
    List.find?, unmarshalItems_map]

lemma checkDeps_eq (L : TODOList) (item : TODOItem) :
    checkDependenciesSatisfied L item =
      ((blockingIDs L item).isEmpty, blockingIDs L item) := by
  by_cases h : item.DependsOn.isEmpty
  · rw [List.isEmpty_iff] at h
    simp [checkDependenciesSatisfied, blockingIDs, h]
  · simp [checkDependenciesSatisfied, h]

lemma modifyFirstByID_eq_self {f : TODOItem → TODOItem} {id : String}
    {items : List TODOItem} {it : TODOItem}
    (h : items.find? (fun i => i.ID == id) = some it) (hf : f it = it) :
    modifyFirstByID f id items = items := by
  induction items with
  | nil => simp [List.find?] at h
  | cons i rest ih =>
    by_cases hc : (i.ID == id) = true
    · simp [List.find?, hc] at h
      subst h
      simp [modifyFirstByID, hc, hf]
    · simp [List.find?, hc] at h
      simp [modifyFirstByID, hc, ih h]

/-- C8: Idempotent removal — when task `x` exists but `y` is not among its
dependencies, `RemoveDependency x y` succeeds and the list is unchanged; when
`x` exists it always succeeds; `NotFound` occurs exactly when `x` is absent. -/
theorem removeDependency_idempotent (L : TODOList) (x y : String) :
    (∀ todo, findTODOByID L x = some todo → y ∉ todo.DependsOn →
      RemoveDependency L x y = .ok L) ∧
    ((findTODOByID L x).isSome → ∃ L', RemoveDependency L x y = .ok L') ∧
    (findTODOByID L x = none → RemoveDependency L x y = .error (.notFound x)) := by
  refine ⟨fun todo hfind hnm => ?_, fun hsome => ?_, fun hnone => ?_⟩
  · have hfix : (fun i => { i with
        DependsOn := i.DependsOn.filter (fun d => !(d == y)) }) todo = todo := by
      have : todo.DependsOn.filter (fun d => !(d == y)) = todo.DependsOn := by
        refine List.filter_eq_self.mpr (fun a ha => ?_)
        simp
        exact fun hay => hnm (hay ▸ ha)
      simp [this]
    have hmod := @modifyFirstByID_eq_self
      (fun i => { i with DependsOn := i.DependsOn.filter (fun d => !(d == y)) })
      x L.Items todo hfind hfix
    simp [RemoveDependency, hfind, hmod]
  · rcases Option.isSome_iff_exists.mp hsome with ⟨todo, hfind⟩
    refine ⟨⟨modifyFirstByID (fun i => { i with
      DependsOn := i.DependsOn.filter (fun d => !(d == y)) }) x L.Items⟩, ?_⟩
    simp [RemoveDependency, hfind]
  · simp [RemoveDependency, hnone]

theorem removeDependency_idempotent_witness :
    RemoveDependency ⟨[⟨"t1", "A", "pending", "", ["a"]⟩]⟩ "t1" "zz" =
      .ok ⟨[⟨"t1", "A", "pending", "", ["a"]⟩]⟩ :=
  (removeDependency_idempotent ⟨[⟨"t1", "A", "pending", "", ["a"]⟩]⟩ "t1" "zz").1
    ⟨"t1", "A", "pending", "", ["a"]⟩ (by decide) (by decide)

/-- C7: Ungated transitions — for an existing task whose current status is not
`pending`, `UpdateStatus` succeeds for every valid new status, with no
condition on the statuses of its dependencies. -/
theorem updateStatus_ungated (L : TODOList) (id ns : String) (item : TODOItem)
    (hfind : findTODOByID L id = some item) (hnp : item.Status ≠ "pending")
    (hvs : validStatusB ns = true) :
    UpdateStatus L id ns =
      .ok ⟨modifyFirstByID (fun i => { i with Status := ns }) id L.Items⟩ := by
  simp [UpdateStatus, hfind, hvs, hnp]

theorem updateStatus_ungated_witness :
    UpdateStatus ⟨[⟨"d", "D", "pending", "", []⟩,
                   ⟨"t", "T", "in_progress", "", ["d"]⟩]⟩ "t" "done" =
      .ok ⟨[⟨"d", "D", "pending", "", []⟩,
            ⟨"t", "T", "done", "", ["d"]⟩]⟩ :=
  updateStatus_ungated ⟨[⟨"d", "D", "pending", "", []⟩,
      ⟨"t", "T", "in_progress", "", ["d"]⟩]⟩ "t" "done"
    ⟨"t", "T", "in_progress", "", ["d"]⟩ (by decide) (by decide) (by decide)

/-- C2: Gating law — a `pending` task with at least one unsatisfied dependency
can be moved neither to `in_progress` nor to `done`: both calls fail with the
`Blocked` error carrying the unsatisfied dependency ids, and the persisted
list is unchanged. -/
theorem updateStatus_gated_blocked (L : TODOList) (id : String) (item : TODOItem)
    (hfind : findTODOByID L id = some item) (hp : item.Status = "pending")
    (hb : blockingIDs L item ≠ []) :
    UpdateStatus L id "in_progress" = .error (.blocked id (blockingIDs L item)) ∧
    UpdateStatus L id "done" = .error (.blocked id (blockingIDs L item)) ∧
    persistAfter L (UpdateStatus L id "in_progress") = L ∧
    persistAfter L (UpdateStatus L id "done") = L := by
  have hc := checkDeps_eq L item
  have hbe : (blockingIDs L item).isEmpty = false := by
    simpa [List.isEmpty_iff] using hb
  have h1 : UpdateStatus L id "in_progress" =
      .error (.blocked id (blockingIDs L item)) := by
    simp [UpdateStatus, hfind, hp, validStatusB, hc, hbe]
  have h2 : UpdateStatus L id "done" =
      .error (.blocked id (blockingIDs L item)) := by
    simp [UpdateStatus, hfind, hp, validStatusB, hc, hbe]
  exact ⟨h1, h2, by simp [persistAfter, h1], by simp [persistAfter, h2]⟩

theorem updateStatus_gated_blocked_witness :
    UpdateStatus ⟨[⟨"t1", "A", "pending", "", []⟩,
                   ⟨"t2", "B", "pending", "", ["t1"]⟩]⟩ "t2" "in_progress" =
        .error (.blocked "t2" ["t1"]) ∧
      UpdateStatus ⟨[⟨"t1", "A", "pending", "", []⟩,
                     ⟨"t2", "B", "pending", "", ["t1"]⟩]⟩ "t2" "done" =
        .error (.blocked "t2" ["t1"]) := by
  have h := updateStatus_gated_blocked
    ⟨[⟨"t1", "A", "pending", "", []⟩, ⟨"t2", "B", "pending", "", ["t1"]⟩]⟩ "t2"
    ⟨"t2", "B", "pending", "", ["t1"]⟩ (by decide) (by decide) (by decide)
  exact ⟨h.1, h.2.1⟩

/-- C9: Agent-mode permission — with a non-empty acting agent and a valid
status, the update is denied (with the task and persisted list unchanged)
whenever the assignee is empty, and whenever the assignee differs from the
agent. -/
theorem updateStatusWithAgent_denies (L : TODOList) (id status agent : String)
    (item : TODOItem) (hagent : agent ≠ "") (hvs : validStatusB status = true)
    (hfind : findTODOByID L id = some item) :
    (item.Assignee = "" →
      UpdateStatusWithAgent L id status agent = .error (.notAssigned id) ∧
      persistAfter L (UpdateStatusWithAgent L id status agent) = L) ∧
    (item.Assignee ≠ "" → item.Assignee ≠ agent →
      UpdateStatusWithAgent L id status agent =
        .error (.permissionDenied id agent item.Assignee) ∧
      persistAfter L (UpdateStatusWithAgent L id status agent) = L) := by
  constructor
  · intro hempty
    have h : UpdateStatusWithAgent L id status agent =
        .error (.notAssigned id) := by
      simp [UpdateStatusWithAgent, hagent, hvs, hfind, hempty]
    exact ⟨h, by simp [persistAfter, h]⟩
  · intro hne hdiff
    have h : UpdateStatusWithAgent L id status agent =
        .error (.permissionDenied id agent item.Assignee) := by
      simp [UpdateStatusWithAgent, hagent, hvs, hfind, hne, hdiff]
    exact ⟨h, by simp [persistAfter, h]⟩

theorem updateStatusWithAgent_denies_witness :
    UpdateStatusWithAgent ⟨[⟨"t1", "A", "pending", "bob", []⟩]⟩ "t1" "done"
        "alice" = .error (.permissionDenied "t1" "alice" "bob") ∧
      UpdateStatusWithAgent ⟨[⟨"t2", "B", "pending", "", []⟩]⟩ "t2" "done"
        "alice" = .error (.notAssigned "t2") := by
  have h1 := (updateStatusWithAgent_denies ⟨[⟨"t1", "A", "pending", "bob", []⟩]⟩
    "t1" "done" "alice" ⟨"t1", "A", "pending", "bob", []⟩
    (by decide) (by decide) (by decide)).2 (by decide) (by decide)
  have h2 := (updateStatusWithAgent_denies ⟨[⟨"t2", "B", "pending", "", []⟩]⟩
    "t2" "done" "alice" ⟨"t2", "B", "pending", "", []⟩
    (by decide) (by decide) (by decide)).1 (by decide)
  exact ⟨h1.1, h2.1⟩

/-- C3 counterexample: `AddTask` with a duplicated dependency id succeeds (no
duplicate-dependency `Conflict` error) and creates a task whose depends_on
contains the id twice. -/
theorem addTODO_duplicate_deps_cex :
    AddTODO ⟨[⟨"d", "D", "pending", "", []⟩]⟩ "t" "T" "" ["d", "d"] =
      .ok (⟨[⟨"d", "D", "pending", "", []⟩,
             ⟨"t", "T", "pending", "", ["d", "d"]⟩]⟩,
        ⟨"t", "T", "pending", "", ["d", "d"]⟩) := by decide

/-- C3 amended: a `dependsOn` list containing the same existing id twice is
accepted by `AddTask`; the new task is appended with the duplicate kept — the
duplicate-edge check applies only to `AddDependency`. -/
theorem addTODO_accepts_duplicate_deps (L : TODOList) (t title a d : String)
    (ht : t ≠ "") (htitle : title ≠ "") (hnew : findTODOByID L t = none)
    (hd : (findTODOByID L d).isSome) :
    AddTODO L t title a [d, d] =
      .ok (⟨L.Items ++ [⟨t, title, "pending", a, [d, d]⟩]⟩,
        ⟨t, title, "pending", a, [d, d]⟩) := by
  have hdn : (findTODOByID L d).isNone = false := by
    rcases Option.isSome_iff_exists.mp hd with ⟨v, hv⟩
    simp [hv]
  simp [AddTODO, ht, htitle, hnew, validateDependenciesExist, List.find?, hdn]

theorem addTODO_accepts_duplicate_deps_witness :
    AddTODO ⟨[⟨"a", "A", "done", "", []⟩, ⟨"b", "B", "pending", "", ["a"]⟩]⟩
        "c" "C" "x" ["b", "b"] =
      .ok (⟨[⟨"a", "A", "done", "", []⟩, ⟨"b", "B", "pending", "", ["a"]⟩,
             ⟨"c", "C", "pending", "x", ["b", "b"]⟩]⟩,
        ⟨"c", "C", "pending", "x", ["b", "b"]⟩) :=
  addTODO_accepts_duplicate_deps
    ⟨[⟨"a", "A", "done", "", []⟩, ⟨"b", "B", "pending", "", ["a"]⟩]⟩
    "c" "C" "x" "b" (by decide) (by decide) (by decide) (by decide)

/-- C4: Atomicity on error — every mutating operation that returns an error
leaves the persisted list exactly as it was (no save happens on any error
path). -/
theorem mutations_atomic_on_error (L : TODOList) :
    (∀ id title a deps e, AddTODO L id title a deps = .error e →
      persistAfterAdd L (AddTODO L id title a deps) = L) ∧
    (∀ id s e, UpdateStatus L id s = .error e →
      persistAfter L (UpdateStatus L id s) = L) ∧
    (∀ id s ag e, UpdateStatusWithAgent L id s ag = .error e →
      persistAfter L (UpdateStatusWithAgent L id s ag) = L) ∧
    (∀ id a e, UpdateAssignee L id a = .error e →
      persistAfter L (UpdateAssignee L id a) = L) ∧
    (∀ id e, RemoveTODO L id = .error e →
      persistAfter L (RemoveTODO L id) = L) ∧
    (∀ f t e, AddDependency L f t = .error e →
      persistAfter L (AddDependency L f t) = L) ∧
    (∀ f t e, RemoveDependency L f t = .error e →
      persistAfter L (RemoveDependency L f t) = L) := by
  refine ⟨fun id title a deps e h => ?_, fun id s e h => ?_,
    fun id s ag e h => ?_, fun id a e h => ?_, fun id e h => ?_,
    fun f t e h => ?_, fun f t e h => ?_⟩ <;>
  simp [persistAfter, persistAfterAdd, h]

lemma findDependents_ne_nil_iff (L : TODOList) (x : String) :
    findDependents L x ≠ [] ↔ ∃ it ∈ L.Items, x ∈ it.DependsOn := by
  rw [findDependents, Ne, List.map_eq_nil_iff, List.filter_eq_nil_iff]
  push_neg
  simp

/-- Referential integrity: every dependency id of every item resolves. -/
def RefIntegrity (L : TODOList) : Prop :=
  ∀ it ∈ L.Items, ∀ d ∈ it.DependsOn, ∃ dep, findTODOByID L d = some dep

lemma findDependents_nil_of_absent {L : TODOList} {x : String}
    (hRI : RefIntegrity L) (habs : findTODOByID L x = none) :
    findDependents L x = [] := by
  by_contra h
  rcases (findDependents_ne_nil_iff L x).mp h with ⟨it, hit, hx⟩
  rcases hRI it hit x hx with ⟨dep, hdep⟩
  rw [habs] at hdep
  cases hdep

/-- C6: `RemoveTask` — fails `Conflict` with the dependent ids (leaving the
list unchanged) whenever some task depends on `x`; fails `NotFound` (list
unchanged) when `x` is absent from a referentially intact list; and when no
task depends on `x` and `x` exists, removes exactly the items with ID `x`,
keeping every other item. -/
theorem removeTODO_spec (L : TODOList) (x : String) :
    ((∃ it ∈ L.Items, x ∈ it.DependsOn) →
      RemoveTODO L x = .error (.hasDependents x (findDependents L x)) ∧
      persistAfter L (RemoveTODO L x) = L) ∧
    (RefIntegrity L → findTODOByID L x = none →
      RemoveTODO L x = .error (.notFound x) ∧
      persistAfter L (RemoveTODO L x) = L) ∧
    ((∀ it ∈ L.Items, x ∉ it.DependsOn) → (findTODOByID L x).isSome →
      RemoveTODO L x = .ok ⟨L.Items.filter (fun i => !(i.ID == x))⟩) := by
  refine ⟨fun hdep => ?_, fun hRI habs => ?_, fun hnodep hsome => ?_⟩
  · have hne : findDependents L x ≠ [] := (findDependents_ne_nil_iff L x).mpr hdep
    have hbe : (findDependents L x).isEmpty = false := by
      simpa [List.isEmpty_iff] using hne
    have h : RemoveTODO L x = .error (.hasDependents x (findDependents L x)) := by
      simp [RemoveTODO, hbe]
    exact ⟨h, by simp [persistAfter, h]⟩
  · have hnil : findDependents L x = [] := findDependents_nil_of_absent hRI habs
    have hany : (L.Items.any (fun item => item.ID == x)) = false := by
      rw [List.any_eq_false]
      intro i hi
      have := List.find?_eq_none.mp habs i hi
      simpa using this
    have h : RemoveTODO L x = .error (.notFound x) := by
      simp [RemoveTODO, hnil, hany]
    exact ⟨h, by simp [persistAfter, h]⟩
  · have hnil : findDependents L x = [] := by
      by_contra h
      rcases (findDependents_ne_nil_iff L x).mp h with ⟨it, hit, hx⟩
      exact hnodep it hit hx
    have hany : (L.Items.any (fun item => item.ID == x)) = true := by
      rw [List.any_eq_true]
      rcases Option.isSome_iff_exists.mp hsome with ⟨it, hit⟩
      rw [findTODOByID] at hit
      have hmem := List.mem_of_find?_eq_some hit
      have hp := List.find?_some hit
      exact ⟨it, hmem, hp⟩
    simp [RemoveTODO, hnil, hany]

theorem removeTODO_spec_witness :
    (RemoveTODO ⟨[⟨"t1", "A", "pending", "", []⟩,
                  ⟨"t2", "C", "pending", "", ["t1"]⟩]⟩ "t1" =
      .error (.hasDependents "t1" ["t2"])) ∧
    (RemoveTODO ⟨[⟨"t1", "A", "pending", "", []⟩]⟩ "zz" =
      .error (.notFound "zz")) ∧
    (RemoveTODO ⟨[⟨"t1", "A", "pending", "", []⟩]⟩ "t1" = .ok ⟨[]⟩) := by
  refine ⟨?_, ?_, ?_⟩
  · have h := (removeTODO_spec ⟨[⟨"t1", "A", "pending", "", []⟩,
      ⟨"t2", "C", "pending", "", ["t1"]⟩]⟩ "t1").1
      ⟨⟨"t2", "C", "pending", "", ["t1"]⟩, by decide, by decide⟩
    exact h.1
  · have hRI : RefIntegrity ⟨[⟨"t1", "A", "pending", "", []⟩]⟩ := by
      intro it hit d hd
      simp at hit
      subst hit
      simp at hd
    have h := (removeTODO_spec ⟨[⟨"t1", "A", "pending", "", []⟩]⟩ "zz").2.1
      hRI (by decide)
    exact h.1
  · have h := (removeTODO_spec ⟨[⟨"t1", "A", "pending", "", []⟩]⟩ "t1").2.2
      (by intro it hit; simp at hit; subst hit; simp) (by decide)
    simpa using h

lemma isEmpty_false_of_ne_nil {α : Type} {l : List α} (h : l ≠ []) :
    l.isEmpty = false := by
  cases l
  · exact absurd rfl h
  · rfl

lemma blockingIDs_ne_nil_dependsOn {L : TODOList} {item : TODOItem}
    (h : blockingIDs L item ≠ []) : item.DependsOn.isEmpty = false := by
  rcases List.exists_mem_of_ne_nil _ h with ⟨d, hd⟩
  have hmem := List.mem_of_mem_filter hd
  exact isEmpty_false_of_ne_nil (List.ne_nil_of_mem hmem)

/-- C10: Partition — every `pending` item lands in exactly one of
`GetReadyTODOs` and `GetBlockedTODOs`, every entry of `GetReadyTODOs` is
`pending`, and every entry of `GetBlockedTODOs` comes from a `pending` item. -/
theorem ready_blocked_partition (L : TODOList)
    (hnd : (L.Items.map (fun i => i.ID)).Nodup) :
    (∀ item ∈ L.Items, item.Status = "pending" →
      ((item ∈ GetReadyTODOs L) ↔ ¬ (mkBlockedTODO L item ∈ GetBlockedTODOs L))) ∧
    (∀ i ∈ GetReadyTODOs L, i.Status = "pending") ∧
    (∀ b ∈ GetBlockedTODOs L, ∃ item ∈ L.Items,
      item.Status = "pending" ∧ b = mkBlockedTODO L item) := by
  refine ⟨fun item hmem hp => ?_, fun i hi => ?_, fun b hb => ?_⟩
  · constructor
    · intro hready hblk
      rw [GetReadyTODOs, List.mem_filter] at hready
      have hempty : (blockingIDs L item).isEmpty = true := by
        have := hready.2
        simpa [checkDeps_eq, hp] using this
      rw [GetBlockedTODOs, List.mem_map] at hblk
      rcases hblk with ⟨item', hfil, heq⟩
      rw [List.mem_filter] at hfil
      have hid : item'.ID = item.ID := congrArg BlockedTODO.ID heq
      have hii : item' = item :=
        List.inj_on_of_nodup_map hnd hfil.1 hmem hid
      subst hii
      have hfalse : (blockingIDs L item').isEmpty = false := by
        have h2 := hfil.2
        simp [checkDeps_eq] at h2
        exact isEmpty_false_of_ne_nil h2.2
      rw [hempty] at hfalse
      cases hfalse
    · intro hnb
      by_cases hempty : (blockingIDs L item).isEmpty = true
      · rw [GetReadyTODOs, List.mem_filter]
        exact ⟨hmem, by simp [checkDeps_eq, hp, hempty]⟩
      · exfalso
        apply hnb
        rw [GetBlockedTODOs, List.mem_map]
        refine ⟨item, ?_, rfl⟩
        rw [List.mem_filter]
        have hne : blockingIDs L item ≠ [] := by
          intro hnil
          exact hempty (by simp [hnil])
        have hdo := blockingIDs_ne_nil_dependsOn hne
        refine ⟨hmem, ?_⟩
        simp [checkDeps_eq, hp, hdo]
        simpa [List.isEmpty_iff] using hne
  · rw [GetReadyTODOs, List.mem_filter] at hi
    have := hi.2
    simp at this
    exact this.1
  · rw [GetBlockedTODOs, List.mem_map] at hb
    rcases hb with ⟨item, hfil, heq⟩
    rw [List.mem_filter] at hfil
    have h2 := hfil.2
    simp [checkDeps_eq] at h2
    exact ⟨item, hfil.1, h2.1.1, heq.symm⟩

theorem ready_blocked_partition_witness :
    (⟨"t1", "A", "pending", "", []⟩ ∈
        GetReadyTODOs ⟨[⟨"t1", "A", "pending", "", []⟩,
                        ⟨"t2", "B", "pending", "", ["t1"]⟩]⟩ ↔
      ¬ (mkBlockedTODO ⟨[⟨"t1", "A", "pending", "", []⟩,
                         ⟨"t2", "B", "pending", "", ["t1"]⟩]⟩
          ⟨"t1", "A", "pending", "", []⟩ ∈
        GetBlockedTODOs ⟨[⟨"t1", "A", "pending", "", []⟩,
                          ⟨"t2", "B", "pending", "", ["t1"]⟩]⟩)) :=
  (ready_blocked_partition ⟨[⟨"t1", "A", "pending", "", []⟩,
      ⟨"t2", "B", "pending", "", ["t1"]⟩]⟩ (by decide)).1
    ⟨"t1", "A", "pending", "", []⟩ (by decide) (by decide)

theorem mutations_atomic_on_error_witness :
    persistAfter ⟨[⟨"t1", "A", "pending", "", []⟩]⟩
        (UpdateStatus ⟨[⟨"t1", "A", "pending", "", []⟩]⟩ "zz" "done") =
      ⟨[⟨"t1", "A", "pending", "", []⟩]⟩ :=
  (mutations_atomic_on_error ⟨[⟨"t1", "A", "pending", "", []⟩]⟩).2.1 "zz" "done"
    (.notFound "zz") (by decide)

/-- Closure property of a finished search: every id newly added to the
visited set is not the target and has all its dependency ids inside the
final visited set. -/
def NewClosed (list : TODOList) (target : String) (v v' : List String) : Prop :=
  ∀ x ∈ v', x ∉ v → x ≠ target ∧ ∀ y ∈ depsOf list x, y ∈ v'

lemma NewClosed_refl (list : TODOList) (target : String) (v : List String) :
    NewClosed list target v v :=
  fun _x hx hnx => absurd hx hnx

lemma NewClosed_trans {list : TODOList} {target : String}
    {v v₁ v₂ : List String} (h1 : NewClosed list target v v₁)
    (h2 : NewClosed list target v₁ v₂) (hsub : v₁ ⊆ v₂) :
    NewClosed list target v v₂ := by
  intro x hx hnx
  by_cases hx1 : x ∈ v₁
  · rcases h1 x hx1 hnx with ⟨hne, hdeps⟩
    exact ⟨hne, fun y hy => hsub (hdeps y hy)⟩
  · exact h2 x hx hx1

/-- The ids of the items present in the list. -/
def presentIDs (list : TODOList) : Finset String :=
  (list.Items.map (fun i => i.ID)).toFinset

/-- Number of present ids not yet visited: the quantity each expansion of the
DFS strictly decreases. -/
def unseen (list : TODOList) (v : List String) : Nat :=
  ((presentIDs list).filter (fun x => x ∉ v)).card

lemma unseen_anti {list : TODOList} {v w : List String} (h : v ⊆ w) :
    unseen list w ≤ unseen list v := by
  apply Finset.card_le_card
  intro x hx
  rw [Finset.mem_filter] at hx ⊢
  exact ⟨hx.1, fun hxv => hx.2 (h hxv)⟩

lemma unseen_lt {list : TODOList} {v : List String} {id : String}
    (hpres : id ∈ presentIDs list) (hnv : id ∉ v) :
    unseen list (id :: v) < unseen list v := by
  apply Finset.card_lt_card
  rw [Finset.ssubset_def]
  constructor
  · intro x hx
    rw [Finset.mem_filter] at hx ⊢
    exact ⟨hx.1, fun hxv => hx.2 (List.mem_cons_of_mem _ hxv)⟩
  · intro hsub
    have hmem := hsub (Finset.mem_filter.mpr ⟨hpres, hnv⟩)
    rw [Finset.mem_filter] at hmem
    exact hmem.2 (List.mem_cons_self _ _)

lemma present_of_find {list : TODOList} {id : String} {it : TODOItem}
    (h : findTODOByID list id = some it) : id ∈ presentIDs list := by
  rw [findTODOByID] at h
  have hmem := List.mem_of_find?_eq_some h
  have hp := List.find?_some h
  have hid : it.ID = id := by simpa using hp
  rw [presentIDs, List.mem_toFinset]
  exact List.mem_map.mpr ⟨it, hmem, hid⟩

lemma dfsList_visited_mono (g : List String → String → Bool × List String)
    (hg : ∀ v id, v ⊆ (g v id).2) :
    ∀ (ds v : List String), v ⊆ (dfsList g v ds).2 := by
  intro ds
  induction ds with
  | nil => intro v; simp [dfsList]
  | cons d ds ih =>
    intro v
    have hv₁ := hg v d
    rcases hgd : g v d with ⟨b, v₁⟩
    rw [hgd] at hv₁
    cases b
    · have heq : dfsList g v (d :: ds) = dfsList g v₁ ds := by
        simp [dfsList, hgd]
      rw [heq]
      exact hv₁.trans (ih v₁)
    · have heq : dfsList g v (d :: ds) = (true, v₁) := by
        simp [dfsList, hgd]
      rw [heq]
      exact hv₁

lemma dfs_visited_mono (list : TODOList) (target : String) :
    ∀ (n : Nat) (v : List String) (id : String),
      v ⊆ (dfs list target n v id).2 := by
  intro n
  induction n with
  | zero => intro v id; simp [dfs]
  | succ n ih =>
    intro v id
    by_cases ht : (id == target) = true
    · simp [dfs, ht]
    · by_cases hv : id ∈ v
      · simp [dfs, ht, hv]
      · have heq : dfs list target (n + 1) v id =
            dfsList (dfs list target n) (id :: v) (depsOf list id) := by
          simp [dfs, ht, hv]
        rw [heq]
        exact (List.subset_cons_self _ _).trans
          (dfsList_visited_mono _ ih _ _)

lemma dfsList_true_exists (g : List String → String → Bool × List String) :
    ∀ (ds v : List String), (dfsList g v ds).1 = true →
      ∃ d ∈ ds, ∃ v', (g v' d).1 = true := by
  intro ds
  induction ds with
  | nil => intro v h; simp [dfsList] at h
  | cons d ds ih =>
    intro v h
    rcases hgd : g v d with ⟨b, v₁⟩
    cases b
    · rw [show dfsList g v (d :: ds) = dfsList g v₁ ds from by
        simp [dfsList, hgd]] at h
      rcases ih v₁ h with ⟨d', hd', hv'⟩
      exact ⟨d', List.mem_cons_of_mem _ hd', hv'⟩
    · exact ⟨d, List.mem_cons_self _ _, v, by rw [hgd]⟩

lemma dfs_true_reach (list : TODOList) (target : String) :
    ∀ (n : Nat) (v : List String) (id : String),
      (dfs list target n v id).1 = true → Reach list id target := by
  intro n
  induction n with
  | zero => intro v id h; simp [dfs] at h
  | succ n ih =>
    intro v id h
    by_cases ht : (id == target) = true
    · have hid : id = target := by simpa using ht
      rw [hid, Reach]
    · by_cases hv : id ∈ v
      · simp [dfs, ht, hv] at h
      · rw [show dfs list target (n + 1) v id =
            dfsList (dfs list target n) (id :: v) (depsOf list id) from by
          simp [dfs, ht, hv]] at h
        rcases dfsList_true_exists _ _ _ h with ⟨d, hd, v', hv'⟩
        exact Relation.ReflTransGen.head hd (ih v' d hv')

lemma dfsList_closure (list : TODOList) (target : String) (n : Nat)
    (g : List String → String → Bool × List String)
    (hmono : ∀ v id, v ⊆ (g v id).2)
    (hg : ∀ v id v', unseen list v + 2 ≤ n → g v id = (false, v') →
      id ∈ v' ∧ NewClosed list target v v') :
    ∀ (ds v v' : List String), unseen list v + 2 ≤ n →
      dfsList g v ds = (false, v') →
      v ⊆ v' ∧ (∀ d ∈ ds, d ∈ v') ∧ NewClosed list target v v' := by
  intro ds
  induction ds with
  | nil =>
    intro v v' hfuel h
    simp [dfsList] at h
    rw [← h]
    exact ⟨List.Subset.refl _, by simp, NewClosed_refl _ _ _⟩
  | cons d ds ih =>
    intro v v' hfuel h
    rcases hgd : g v d with ⟨b, v₁⟩
    cases b
    · have h' : dfsList g v₁ ds = (false, v') := by
        rw [show dfsList g v (d :: ds) = dfsList g v₁ ds from by
          simp [dfsList, hgd]] at h
        exact h
      have hsub1 : v ⊆ v₁ := by
        have hm := hmono v d
        rw [hgd] at hm
        exact hm
      rcases hg v d v₁ hfuel hgd with ⟨hdv₁, hnc1⟩
      have hfuel₁ : unseen list v₁ + 2 ≤ n := by
        have := @unseen_anti list v v₁ hsub1
        omega
      rcases ih v₁ v' hfuel₁ h' with ⟨hsub2, hds, hnc2⟩
      refine ⟨hsub1.trans hsub2, ?_, NewClosed_trans hnc1 hnc2 hsub2⟩
      intro x hx
      rcases List.mem_cons.mp hx with hx1 | hx2
      · rw [hx1]; exact hsub2 hdv₁
      · exact hds x hx2
    · rw [show dfsList g v (d :: ds) = (true, v₁) from by
        simp [dfsList, hgd]] at h
      simp at h

lemma dfs_closure (list : TODOList) (target : String) :
    ∀ (n : Nat) (v : List String) (id : String) (v' : List String),
      unseen list v + 2 ≤ n →
      dfs list target n v id = (false, v') →
      id ∈ v' ∧ v ⊆ v' ∧ NewClosed list target v v' := by
  intro n
  induction n with
  | zero => intro v id v' hfuel h; omega
  | succ n ih =>
    intro v id v' hfuel h
    by_cases ht : (id == target) = true
    · rw [show dfs list target (n + 1) v id = (true, v) from by
        simp [dfs, ht]] at h
      simp at h
    · by_cases hv : id ∈ v
      · rw [show dfs list target (n + 1) v id = (false, v) from by
          simp [dfs, ht, hv]] at h
        have hvv : v = v' := by
          injection h
        rw [← hvv]
        exact ⟨hv, List.Subset.refl _, NewClosed_refl _ _ _⟩
      · have hstep : dfsList (dfs list target n) (id :: v) (depsOf list id) =
            (false, v') := by
          rw [show dfs list target (n + 1) v id =
              dfsList (dfs list target n) (id :: v) (depsOf list id) from by
            simp [dfs, ht, hv]] at h
          exact h
        have hid_ne : id ≠ target := by simpa using ht
        by_cases hpres : id ∈ presentIDs list
        · have hfuel' : unseen list (id :: v) + 2 ≤ n := by
            have hlt := unseen_lt hpres hv
            omega
          rcases dfsList_closure list target n (dfs list target n)
            (dfs_visited_mono list target n)
            (fun w j w' hf hd => ⟨(ih w j w' hf hd).1, (ih w j w' hf hd).2.2⟩)
            (depsOf list id) (id :: v) v' hfuel' hstep with ⟨hsub, hds, hnc⟩
          refine ⟨hsub (List.mem_cons_self _ _),
            (List.subset_cons_self _ _).trans hsub, ?_⟩
          intro x hx hnx
          by_cases hxid : x = id
          · rw [hxid]
            exact ⟨hid_ne, fun y hy => hds y hy⟩
          · have hxniv : x ∉ id :: v := by
              intro hmem
              rcases List.mem_cons.mp hmem with h1 | h2
              exacts [hxid h1, hnx h2]
            exact hnc x hx hxniv
        · have hdeps : depsOf list id = [] := by
            rw [depsOf]
            cases hf : findTODOByID list id with
            | some it => exact absurd (present_of_find hf) hpres
            | none => rfl
          rw [hdeps] at hstep
          have hvv : id :: v = v' := by
            rw [show dfsList (dfs list target n) (id :: v) [] =
                (false, id :: v) from rfl] at hstep
            injection hstep
          rw [← hvv]
          refine ⟨List.mem_cons_self _ _, List.subset_cons_self _ _, ?_⟩
          intro x hx hnx
          have hxid : x = id := by
            rcases List.mem_cons.mp hx with h1 | h2
            · exact h1
            · exact absurd h2 hnx
          rw [hxid]
          exact ⟨hid_ne, by rw [hdeps]; intro y hy; simp at hy⟩

lemma detect_false_not_reach {list : TODOList} {todoID depID : String}
    (h : detectCircularDependency list todoID depID = false) :
    ¬ Reach list depID todoID := by
  rw [detectCircularDependency] at h
  rcases hd : dfs list todoID (list.Items.length + 2) [] depID with ⟨b, V⟩
  rw [hd] at h
  simp at h
  rw [h] at hd
  have hfuel : unseen list ([] : List String) + 2 ≤ list.Items.length + 2 := by
    have h1 : unseen list [] ≤ list.Items.length := by
      rw [unseen]
      calc ((presentIDs list).filter (fun x => x ∉ ([] : List String))).card
          ≤ (presentIDs list).card :=
            Finset.card_le_card (Finset.filter_subset _ _)
        _ ≤ (list.Items.map (fun i => i.ID)).length :=
            List.toFinset_card_le _
        _ = list.Items.length := List.length_map _ _
    omega
  rcases dfs_closure list todoID _ [] depID V hfuel hd with ⟨hdep, _, hnc⟩
  intro hreach
  have hall : ∀ x, Reach list depID x → x ∈ V := by
    intro x hx
    induction hx with
    | refl => exact hdep
    | tail hab hbc ih =>
      exact (hnc _ ih (List.not_mem_nil _)).2 _ hbc
  exact (hnc todoID (hall todoID hreach) (List.not_mem_nil _)).1 rfl

lemma reach_detect_true {list : TODOList} {todoID depID : String}
    (h : Reach list depID todoID) :
    detectCircularDependency list todoID depID = true := by
  cases hd : detectCircularDependency list todoID depID
  · exact absurd h (detect_false_not_reach hd)
  · rfl

lemma find?_modifyFirstByID_ne {g : TODOItem → TODOItem}
    (hID : ∀ i, (g i).ID = i.ID) {id x : String} (hx : x ≠ id) :
    ∀ items : List TODOItem,
      (modifyFirstByID g id items).find? (fun i => i.ID == x) =
        items.find? (fun i => i.ID == x) := by
  intro items
  induction items with
  | nil => rfl
  | cons i rest ih =>
    by_cases hc : (i.ID == id) = true
    · have hiid : i.ID = id := by simpa using hc
      have hix : (i.ID == x) = false := by
        simp [hiid]
        exact fun hh => hx hh.symm
      have hgx : ((g i).ID == x) = false := by rw [hID]; exact hix
      simp [modifyFirstByID, hc, List.find?, hix, hgx]
    · by_cases hix : (i.ID == x) = true
      · simp [modifyFirstByID, hc, List.find?, hix]
      · simp [modifyFirstByID, hc, List.find?, hix, ih]

lemma find?_modifyFirstByID_eq {g : TODOItem → TODOItem}
    (hID : ∀ i, (g i).ID = i.ID) {id : String} :
    ∀ {items : List TODOItem} {it : TODOItem},
      items.find? (fun i => i.ID == id) = some it →
      (modifyFirstByID g id items).find? (fun i => i.ID == id) =
        some (g it) := by
  intro items
  induction items with
  | nil => intro it h; simp [List.find?] at h
  | cons i rest ih =>
    intro it h
    by_cases hc : (i.ID == id) = true
    · simp [List.find?, hc] at h
      have hgc : ((g i).ID == id) = true := by rw [hID]; exact hc
      rw [← h]
      simp [modifyFirstByID, hc, List.find?, hgc]
    · simp [List.find?, hc] at h
      simp only [modifyFirstByID, hc]
      simp [List.find?, hc, ih h]

lemma depsOf_addEdge {L : TODOList} {f t : String} {todo : TODOItem}
    (hfind : findTODOByID L f = some todo) :
    ∀ x, depsOf (addEdgeList L f t) x =
      if x = f then todo.DependsOn ++ [t] else depsOf L x := by
  intro x
  have hID : ∀ i : TODOItem,
      ((fun (j : TODOItem) => { j with DependsOn := j.DependsOn ++ [t] }) i).ID =
        i.ID :=
    fun i => rfl
  rw [findTODOByID] at hfind
  by_cases hx : x = f
  · rw [if_pos hx, hx, depsOf, addEdgeList, findTODOByID]
    rw [find?_modifyFirstByID_eq hID hfind]
  · rw [if_neg hx, depsOf, depsOf, addEdgeList, findTODOByID, findTODOByID]
    rw [find?_modifyFirstByID_ne hID hx]

lemma step_addEdge {L : TODOList} {f t : String} {todo : TODOItem}
    (hfind : findTODOByID L f = some todo) {a b : String}
    (h : Step (addEdgeList L f t) a b) :
    Step L a b ∨ (a = f ∧ b = t) := by
  rw [Step, depsOf_addEdge hfind] at h
  by_cases ha : a = f
  · rw [if_pos ha] at h
    rcases List.mem_append.mp h with h1 | h2
    · left
      rw [Step, ha, depsOf, hfind]
      exact h1
    · right
      exact ⟨ha, by simpa using h2⟩
  · rw [if_neg ha] at h
    left
    exact h

lemma reach_addEdge {L : TODOList} {f t : String} {todo : TODOItem}
    (hfind : findTODOByID L f = some todo) {a b : String}
    (h : Relation.ReflTransGen (Step (addEdgeList L f t)) a b) :
    Reach L a b ∨ (Reach L a f ∧ Reach L t b) := by
  induction h with
  | refl => left; rw [Reach]
  | tail hab hbc ih =>
    rcases step_addEdge hfind hbc with hstep | ⟨hcf, hbt⟩
    · rcases ih with h1 | ⟨h2, h3⟩
      · left; exact Relation.ReflTransGen.tail h1 hstep
      · right; exact ⟨h2, Relation.ReflTransGen.tail h3 hstep⟩
    · rcases ih with h1 | ⟨h2, h3⟩
      · right
        rw [hcf] at h1
        exact ⟨h1, by rw [hbt, Reach]⟩
      · right
        exact ⟨h2, by rw [hbt, Reach]⟩

lemma acyclic_addEdge {L : TODOList} {f t : String} {todo : TODOItem}
    (hfind : findTODOByID L f = some todo) (hA : Acyclic L)
    (hnr : ¬ Reach L t f) : Acyclic (addEdgeList L f t) := by
  intro x hx
  rcases Relation.TransGen.tail'_iff.mp hx with ⟨y, hxy, hyx⟩
  rcases step_addEdge hfind hyx with hstep | ⟨hyf, hxt⟩
  · rcases reach_addEdge hfind hxy with h1 | ⟨h2, h3⟩
    · exact hA x (Relation.TransGen.tail' h1 hstep)
    · exact hnr (Relation.ReflTransGen.trans
        (Relation.ReflTransGen.tail h3 hstep) h2)
  · rcases reach_addEdge hfind hxy with h1 | ⟨h2, h3⟩
    · rw [hxt] at h1
      rw [hyf] at h1
      exact hnr h1
    · rw [hxt] at h2
      exact hnr h2

lemma addDependency_ok {L L' : TODOList} {f t : String}
    (h : AddDependency L f t = .ok L') :
    ∃ todo, findTODOByID L f = some todo ∧
      detectCircularDependency L f t = false ∧ L' = addEdgeList L f t := by
  rw [AddDependency] at h
  by_cases hft : (f == t) = true
  · simp [hft] at h
  · rw [Bool.not_eq_true] at hft
    rw [hft] at h
    simp only [Bool.false_eq_true, if_false] at h
    cases hfind : findTODOByID L f with
    | none => rw [hfind] at h; cases h
    | some todo =>
      rw [hfind] at h
      by_cases hn : (findTODOByID L t).isNone = true
      · rw [hn] at h; simp at h
      · rw [Bool.not_eq_true] at hn
        rw [hn] at h
        simp only [Bool.false_eq_true, if_false] at h
        by_cases hdet : detectCircularDependency L f t = true
        · rw [hdet] at h; simp at h
        · rw [Bool.not_eq_true] at hdet
          rw [hdet] at h
          simp only [Bool.false_eq_true, if_false] at h
          by_cases hdup : (todo.DependsOn.contains t) = true
          · rw [hdup] at h; simp at h
          · rw [Bool.not_eq_true] at hdup
            rw [hdup] at h
            simp only [Bool.false_eq_true, if_false] at h
            injection h with h
            exact ⟨todo, rfl, hdet, h.symm⟩

lemma addDependency_preserves_acyclic {L L' : TODOList} {f t : String}
    (hA : Acyclic L) (h : AddDependency L f t = .ok L') : Acyclic L' := by
  rcases addDependency_ok h with ⟨todo, hfind, hdet, hL'⟩
  rw [hL']
  exact acyclic_addEdge hfind hA (detect_false_not_reach hdet)

lemma addDepSeq_preserves :
    ∀ (calls : List (String × String)) (L L' : TODOList),
      Acyclic L → addDepSeq L calls = .ok L' → Acyclic L' := by
  intro calls
  induction calls with
  | nil =>
    intro L L' hA h
    rw [addDepSeq] at h
    injection h with h
    rw [← h]
    exact hA
  | cons c cs ih =>
    intro L L' hA h
    rw [addDepSeq] at h
    cases hstep : AddDependency L c.1 c.2 with
    | ok L₁ =>
      rw [hstep] at h
      exact ih L₁ L' (addDependency_preserves_acyclic hA hstep) h
    | error e =>
      rw [hstep] at h
      cases h

lemma acyclic_of_no_deps {L : TODOList}
    (h : ∀ it ∈ L.Items, it.DependsOn = []) : Acyclic L := by
  have hstep : ∀ a b, ¬ Step L a b := by
    intro a b hab
    rw [Step, depsOf] at hab
    cases hf : findTODOByID L a with
    | none => rw [hf] at hab; simp at hab
    | some it =>
      rw [hf] at hab
      have hmem : it ∈ L.Items := by
        rw [findTODOByID] at hf
        exact List.mem_of_find?_eq_some hf
      have hab' : b ∈ it.DependsOn := hab
      rw [h it hmem] at hab'
      simp at hab'
  intro x hx
  cases hx with
  | single h1 => exact hstep _ _ h1
  | tail _ h2 => exact hstep _ _ h2

/-- C1: Acyclicity is preserved — starting from an acyclic list, any sequence
of successful `AddDependency` calls yields an acyclic list; and a call whose
new edge would close a cycle (the target transitively depends on the source)
fails with `CircularDependency`, leaving the persisted list unchanged. -/
theorem addDependency_acyclicity (L : TODOList) (hA : Acyclic L) :
    (∀ (calls : List (String × String)) (L' : TODOList),
      addDepSeq L calls = .ok L' → Acyclic L') ∧
    (∀ f t, f ≠ t → (findTODOByID L f).isSome → (findTODOByID L t).isSome →
      Reach L t f →
      AddDependency L f t = .error (.circularDependency t f) ∧
      persistAfter L (AddDependency L f t) = L) := by
  constructor
  · intro calls L' h
    exact addDepSeq_preserves calls L L' hA h
  · intro f t hft hf ht hreach
    have hdet := reach_detect_true hreach
    rcases Option.isSome_iff_exists.mp hf with ⟨todo, htodo⟩
    have hne : (f == t) = false := by simpa using hft
    have htn : (findTODOByID L t).isNone = false := by
      rcases Option.isSome_iff_exists.mp ht with ⟨u, hu⟩
      simp [hu]
    have hh : AddDependency L f t = .error (.circularDependency t f) := by
      simp [AddDependency, hne, htodo, htn, hdet]
    exact ⟨hh, by simp [persistAfter, hh]⟩

theorem addDependency_acyclicity_witness :
    Acyclic (⟨[⟨"t1", "A", "pending", "", []⟩,
               ⟨"t2", "B", "pending", "", ["t1"]⟩]⟩ : TODOList) ∧
    AddDependency ⟨[⟨"t1", "A", "pending", "", []⟩,
                    ⟨"t2", "B", "pending", "", ["t1"]⟩]⟩ "t1" "t2" =
      .error (.circularDependency "t2" "t1") := by
  have hA0 : Acyclic (⟨[⟨"t1", "A", "pending", "", []⟩,
      ⟨"t2", "B", "pending", "", []⟩]⟩ : TODOList) := by
    apply acyclic_of_no_deps
    intro it hit
    simp at hit
    rcases hit with h | h <;> simp [h]
  have hseq : addDepSeq ⟨[⟨"t1", "A", "pending", "", []⟩,
      ⟨"t2", "B", "pending", "", []⟩]⟩ [("t2", "t1")] =
      .ok ⟨[⟨"t1", "A", "pending", "", []⟩,
            ⟨"t2", "B", "pending", "", ["t1"]⟩]⟩ := by decide
  have hA1 := (addDependency_acyclicity _ hA0).1 [("t2", "t1")] _ hseq
  have hreach : Reach ⟨[⟨"t1", "A", "pending", "", []⟩,
      ⟨"t2", "B", "pending", "", ["t1"]⟩]⟩ "t2" "t1" := by
    apply Relation.ReflTransGen.single
    show "t1" ∈ depsOf ⟨[⟨"t1", "A", "pending", "", []⟩,
      ⟨"t2", "B", "pending", "", ["t1"]⟩]⟩ "t2"
    decide
  have h2 := (addDependency_acyclicity _ hA1).2 "t1" "t2"
    (by decide) (by decide) (by decide) hreach
  exact ⟨hA1, h2.1⟩
